import Mathlib

/-!
Verification of the zlapi chat client (`zlapi/simple/_async.py`).

The development shallowly embeds the parts of the client that the spec's
testable properties are about: the envelope codec, the response-unwrap
pipeline of an API call, the session-loading operations, the handler
registry / dispatcher, and the polling listen loop.

Parts of the repository that live outside `zlapi/simple/_async.py`
(namely `zlapi/_util.py` and `zlapi/Async/_state.py`) are not in the
source tree; where a property depends on them they are modelled from the
spec, and each such definition carries a doc comment saying so.
-/

namespace Zlapi

/-! ## Envelope codec

`ZaloAPI._encode` / `ZaloAPI._decode` delegate to `_util.zalo_encode` /
`_util.zalo_decode` with the session's secret key.  `zlapi/_util.py` is
not under the source tree, so the codec is modelled from the spec: a pure
transformation of an ordered key→value parameter map into an opaque byte
string under a per-session secret, together with its exact inverse.

The model serialises the parameter map with an injective escaping scheme
and then masks the bytes with a keystream derived from the secret.
-/

/-- Escape a single character so that the separators `=` and `&` and the
escape lead `!` never occur literally in serialised keys or values. -/
def escapeChar (c : Char) : List Char :=
  if c = '!' then ['!', '0']
  else if c = '=' then ['!', '1']
  else if c = '&' then ['!', '2']
  else [c]

/-- Escape every character of a string (as a character list). -/
def escape : List Char → List Char
  | [] => []
  | c :: rest => escapeChar c ++ escape rest

/-- Inverse of `escape`: undo the two-character escape sequences. -/
def unescape : List Char → List Char
  | [] => []
  | [c] => [c]
  | c :: d :: rest =>
    if c = '!' then
      (if d = '0' then '!' else if d = '1' then '=' else if d = '2' then '&' else d)
        :: unescape rest
    else
      c :: unescape (d :: rest)

/-- Serialise one key/value pair as `escaped-key = escaped-value`. -/
def encPiece (kv : String × String) : List Char :=
  escape kv.1.data ++ '=' :: escape kv.2.data

/-- Serialise a parameter map: pieces joined by `&`. -/
def serializeParams (params : List (String × String)) : List Char :=
  List.intercalate ['&'] (params.map encPiece)

/-- Parse one `key=value` piece back into a pair. -/
def parsePiece (piece : List Char) : Option (String × String) :=
  match piece.splitOn '=' with
  | [k, v] => some (String.mk (unescape k), String.mk (unescape v))
  | _ => none

/-- Parse a list of pieces, failing if any piece is malformed. -/
def parsePieces : List (List Char) → Option (List (String × String))
  | [] => some []
  | p :: rest =>
    match parsePiece p, parsePieces rest with
    | some kv, some tail => some (kv :: tail)
    | _, _ => none

/-- Parse a serialised parameter map. -/
def parseParams (s : List Char) : Option (List (String × String)) :=
  match s with
  | [] => some []
  | _ => parsePieces (s.splitOn '&')

/-- Keystream byte of the secret at position `i` (cycling through the
secret; the empty secret yields the identity mask). -/
def keyAt (key : List Nat) (i : Nat) : Nat :=
  (key.get? (i % key.length)).getD 0

/-- Mask a byte string with the secret keystream (xor); self-inverse. -/
def mask (key : List Nat) : Nat → List Nat → List Nat
  | _, [] => []
  | i, b :: rest => (b ^^^ keyAt key i) :: mask key (i + 1) rest

/-- Modelled from the spec: `_util.zalo_encode` (in `zlapi/_util.py`,
absent from the source tree) — encodes an ordered parameter map into the
transport-obfuscated opaque form under the session secret. -/
def zalo_encode (params : List (String × String)) (secret : List Nat) : List Nat :=
  mask secret 0 ((serializeParams params).map Char.toNat)

/-- Modelled from the spec: `_util.zalo_decode` (in `zlapi/_util.py`,
absent from the source tree) — inverts `zalo_encode`, failing on a
payload that does not parse back into a parameter map. -/
def zalo_decode (payload : List Nat) (secret : List Nat) : Option (List (String × String)) :=
  parseParams ((mask secret 0 payload).map Char.ofNat)

lemma unescape_cons_of_ne (c : Char) (l : List Char) (h : ¬c = '!') :
    unescape (c :: l) = c :: unescape l := by
  cases l with
  | nil => rfl
  | cons d rest => simp [unescape, h]

lemma unescape_escape (s : List Char) : unescape (escape s) = s := by
  induction s with
  | nil => rfl
  | cons c rest ih =>
    show unescape (escapeChar c ++ escape rest) = c :: rest
    unfold escapeChar
    split_ifs with h1 h2 h3
    · subst h1; simpa [unescape] using ih
    · subst h2; simpa [unescape] using ih
    · subst h3; simpa [unescape] using ih
    · rw [List.singleton_append, unescape_cons_of_ne c _ h1, ih]

lemma eq_not_mem_escape (s : List Char) : '=' ∉ escape s := by
  induction s with
  | nil => simp [escape]
  | cons c rest ih =>
    show '=' ∉ escapeChar c ++ escape rest
    rw [List.mem_append]
    rintro (hc | hc)
    · revert hc
      unfold escapeChar
      split_ifs with h1 h2 h3
      · decide
      · decide
      · decide
      · simp only [List.mem_singleton]
        intro he
        exact h2 he.symm
    · exact ih hc

lemma amp_not_mem_escape (s : List Char) : '&' ∉ escape s := by
  induction s with
  | nil => simp [escape]
  | cons c rest ih =>
    show '&' ∉ escapeChar c ++ escape rest
    rw [List.mem_append]
    rintro (hc | hc)
    · revert hc
      unfold escapeChar
      split_ifs with h1 h2 h3
      · decide
      · decide
      · decide
      · simp only [List.mem_singleton]
        intro he
        exact h3 he.symm
    · exact ih hc

lemma amp_not_mem_encPiece (kv : String × String) : '&' ∉ encPiece kv := by
  unfold encPiece
  rw [List.mem_append, List.mem_cons]
  rintro (h | h | h)
  · exact amp_not_mem_escape _ h
  · exact absurd h (by decide)
  · exact amp_not_mem_escape _ h

lemma encPiece_ne_nil (kv : String × String) : encPiece kv ≠ [] := by
  unfold encPiece
  intro h
  exact absurd (List.append_eq_nil.mp h).2 (by simp)

lemma splitOn_encPiece (k v : String) :
    (encPiece (k, v)).splitOn '=' = [escape k.data, escape v.data] := by
  have h1 : ∀ x ∈ escape k.data, ¬(x == '=') = true := by
    intro x hx
    simp only [beq_iff_eq]
    intro he
    subst he
    exact eq_not_mem_escape _ hx
  have h2 : ∀ x ∈ escape v.data, ¬(x == '=') = true := by
    intro x hx
    simp only [beq_iff_eq]
    intro he
    subst he
    exact eq_not_mem_escape _ hx
  show List.splitOnP (· == '=') (escape k.data ++ '=' :: escape v.data)
      = [escape k.data, escape v.data]
  rw [List.splitOnP_first _ _ h1 '=' (by simp), List.splitOnP_eq_single _ _ h2]

lemma parsePiece_encPiece (kv : String × String) :
    parsePiece (encPiece kv) = some kv := by
  obtain ⟨k, v⟩ := kv
  unfold parsePiece
  rw [splitOn_encPiece k v]
  simp only [unescape_escape]

lemma parsePieces_map_encPiece (params : List (String × String)) :
    parsePieces (params.map encPiece) = some params := by
  induction params with
  | nil => rfl
  | cons kv rest ih =>
    show parsePieces (encPiece kv :: rest.map encPiece) = some (kv :: rest)
    unfold parsePieces
    rw [parsePiece_encPiece, ih]

lemma parseParams_of_ne_nil (s : List Char) (h : s ≠ []) :
    parseParams s = parsePieces (s.splitOn '&') := by
  cases s with
  | nil => exact absurd rfl h
  | cons a l => rfl

lemma parseParams_serializeParams (params : List (String × String)) :
    parseParams (serializeParams params) = some params := by
  cases params with
  | nil => rfl
  | cons kv rest =>
    have hser : serializeParams (kv :: rest)
        = List.intercalate ['&'] ((kv :: rest).map encPiece) := rfl
    have hsplit : (serializeParams (kv :: rest)).splitOn '&'
        = (kv :: rest).map encPiece := by
      rw [hser]
      refine List.splitOn_intercalate _ '&' ?_ (by simp)
      intro l hl
      obtain ⟨kv', _, hkv⟩ := List.mem_map.mp hl
      rw [← hkv]
      exact amp_not_mem_encPiece kv'
    have hne : serializeParams (kv :: rest) ≠ [] := by
      intro h
      have h2 := hsplit
      rw [h, List.splitOn_nil, List.map_cons] at h2
      injection h2 with ha _
      exact encPiece_ne_nil kv ha.symm
    rw [parseParams_of_ne_nil _ hne, hsplit]
    exact parsePieces_map_encPiece (kv :: rest)

lemma mask_mask (key : List Nat) (i : Nat) (data : List Nat) :
    mask key i (mask key i data) = data := by
  induction data generalizing i with
  | nil => rfl
  | cons b rest ih =>
    show ((b ^^^ keyAt key i) ^^^ keyAt key i) :: mask key (i + 1) (mask key (i + 1) rest)
        = b :: rest
    rw [Nat.xor_cancel_right, ih]

/-- C1: decoding the encoding of a parameter map under the session secret
yields the parameter map again — `Decode(Encode(P, S), S) = P` for every
parameter map `P` and secret `S`. -/
theorem c1_decode_encode_roundtrip (params : List (String × String)) (secret : List Nat) :
    zalo_decode (zalo_encode params secret) secret = some params := by
  unfold zalo_decode zalo_encode
  rw [mask_mask, List.map_map]
  have hmap : (serializeParams params).map (Char.ofNat ∘ Char.toNat)
      = serializeParams params := by
    apply List.map_id''
    intro c
    exact Char.ofNat_toNat c
  rw [hmap]
  exact parseParams_serializeParams params

/-! ## Python values and the response-unwrap pipeline

`fetch_account_info` (src/zlapi/simple/_async.py, lines 322–361) is the
spec's canonical API call: it reads the outer JSON envelope, keeps `data`
only when `error_code == 0`, feeds it through `self._decode`, unwraps the
inner envelope, substitutes a 1337 diagnostic when the inner data is
`None`, re-parses a string payload as JSON, and otherwise raises
`ZaloAPIException` carrying the outer error code and message.

Python values are modelled by `PVal`; the external decode step
(`self._decode`, whose implementation lives in the missing
`zlapi/_util.py`) and `json.loads` are passed in as function parameters.
-/

/-- A Python/JSON value as it flows through the unwrap pipeline. -/
inductive PVal where
  | none
  | int (n : Int)
  | str (s : String)
  | dict (d : List (String × PVal))

/-- Python truthiness of a `PVal` (`if results:`). -/
def pyTruthy : PVal → Bool
  | PVal.none => false
  | PVal.int n => n != 0
  | PVal.str s => s != ""
  | PVal.dict d => !d.isEmpty

/-- Python `dict.get(key)`: the value, or `None` when absent. -/
def pyGet (d : List (String × PVal)) (k : String) : PVal :=
  (d.lookup k).getD PVal.none

/-- Python `v == 0` for the values the pipeline compares. -/
def pyEqZero : PVal → Bool
  | PVal.int n => n == 0
  | _ => false

/-- Python `v == None`. -/
def pyIsNone : PVal → Bool
  | PVal.none => true
  | _ => false

/-- Python `a or b`. -/
def pyOr (a b : PVal) : PVal :=
  if pyTruthy a then a else b

/-- Failure modes of one API call: a codec failure inside `_decode`, a
type error from operating on an unexpected shape, or the
`ZaloAPIException` raised at the end of the method with the envelope's
error code and message. -/
inductive CallError where
  | decodeError
  | typeError
  | api (error_code : PVal) (error_message : PVal)

/-- Shallow embedding of `ZaloAPI.fetch_account_info`
(src/zlapi/simple/_async.py, lines 343–361), from the `_get` response
envelope `data` on.  `dec` stands for `self._decode` (the codec applied
with the session secret; its code is in the absent `zlapi/_util.py`) and
`jsonLoads` for `json.loads`; both are call-site parameters.  The final
`User.fromDict` field mapping is out of the spec's scope, so the payload
handed to it is returned unchanged. -/
def fetch_account_info (dec : String → Option PVal) (jsonLoads : String → Option PVal)
    (data : List (String × PVal)) : Except CallError PVal :=
  let results := if pyEqZero (pyGet data "error_code") then pyGet data "data" else PVal.none
  if pyTruthy results then
    match results with
    | PVal.str s =>
      match dec s with
      | some decoded =>
        match decoded with
        | PVal.dict dd =>
          let results2 :=
            if pyEqZero (pyGet dd "error_code") then pyGet dd "data" else PVal.dict dd
          let results3 :=
            if pyIsNone results2 then
              PVal.dict [("error_code", PVal.int 1337),
                         ("error_message", PVal.str "Data is None")]
            else results2
          match results3 with
          | PVal.str s2 =>
            match jsonLoads s2 with
            | some parsed => Except.ok parsed
            | Option.none =>
              Except.ok (PVal.dict [("error_code", PVal.int 1337),
                                    ("error_message", PVal.str s2)])
          | other => Except.ok other
        | _ => Except.error CallError.typeError
      | Option.none => Except.error CallError.decodeError
    | _ => Except.error CallError.typeError
  else
    Except.error (CallError.api (pyGet data "error_code")
      (pyOr (pyGet data "error_message") (pyGet data "data")))

/-- C2: when the outer envelope has `error_code == 0` and the success
invariant holds (the `data` payload is present and decodes to an inner
success envelope with a present payload), `fetch_account_info` returns
that non-null decoded payload; when `error_code != 0`, it raises a
`ZaloAPIException` carrying exactly that error code. -/
theorem c2_error_code_semantics (dec jsonLoads : String → Option PVal)
    (dataA dataB : List (String × PVal)) (s : String)
    (dd d2 : List (String × PVal)) (ec : Int)
    (ha1 : pyGet dataA "error_code" = PVal.int 0)
    (ha2 : pyGet dataA "data" = PVal.str s)
    (ha3 : s ≠ "")
    (ha4 : dec s = some (PVal.dict dd))
    (ha5 : pyGet dd "error_code" = PVal.int 0)
    (ha6 : pyGet dd "data" = PVal.dict d2)
    (hb1 : pyGet dataB "error_code" = PVal.int ec)
    (hb2 : ec ≠ 0) :
    (fetch_account_info dec jsonLoads dataA = Except.ok (PVal.dict d2)
      ∧ PVal.dict d2 ≠ PVal.none)
    ∧ ∃ em, fetch_account_info dec jsonLoads dataB
        = Except.error (CallError.api (PVal.int ec) em) := by
  constructor
  · constructor
    · unfold fetch_account_info
      simp [ha1, ha2, ha3, ha4, ha5, ha6, pyEqZero, pyTruthy, pyIsNone]
    · intro h
      exact PVal.noConfusion h
  · refine ⟨pyOr (pyGet dataB "error_message") (pyGet dataB "data"), ?_⟩
    unfold fetch_account_info
    simp [hb1, hb2, pyEqZero, pyTruthy]

/-- Witness for C2 at a concrete decoder and concrete success and failure
envelopes. -/
theorem c2_error_code_semantics_witness :
    (fetch_account_info
        (fun s => if s = "enc" then
          some (PVal.dict [("error_code", PVal.int 0),
                           ("data", PVal.dict [("userId", PVal.str "99")])])
          else Option.none)
        (fun _ => Option.none)
        [("error_code", PVal.int 0), ("data", PVal.str "enc")]
      = Except.ok (PVal.dict [("userId", PVal.str "99")])
      ∧ PVal.dict [("userId", PVal.str "99")] ≠ PVal.none)
    ∧ ∃ em, fetch_account_info
        (fun s => if s = "enc" then
          some (PVal.dict [("error_code", PVal.int 0),
                           ("data", PVal.dict [("userId", PVal.str "99")])])
          else Option.none)
        (fun _ => Option.none)
        [("error_code", PVal.int 515), ("error_message", PVal.str "rate limited")]
        = Except.error (CallError.api (PVal.int 515) em) :=
  c2_error_code_semantics
    (fun s => if s = "enc" then
      some (PVal.dict [("error_code", PVal.int 0),
                       ("data", PVal.dict [("userId", PVal.str "99")])])
      else Option.none)
    (fun _ => Option.none)
    [("error_code", PVal.int 0), ("data", PVal.str "enc")]
    [("error_code", PVal.int 515), ("error_message", PVal.str "rate limited")]
    "enc" [("error_code", PVal.int 0), ("data", PVal.dict [("userId", PVal.str "99")])]
    [("userId", PVal.str "99")] 515
    rfl rfl (by decide) rfl rfl rfl rfl (by decide)

/-! ## Session state

`set_session` and `is_logged_in` live in src/zlapi/simple/_async.py
(lines 151–172 and 135–141); both delegate to `_state.State` from
`zlapi/Async/_state.py`, which is absent from the source tree, so the
state operations are modelled from the spec. -/

/-- Modelled from the spec: the cookie fields that a session cookie
mapping must supply so that the state can populate the cookie jar and
derive the numeric user id (`zlapi/Async/_state.py` is absent from the
source tree; the spec leaves the concrete field names opaque, so
representative names are used). -/
def requiredSessionFields : List String := ["zpw_sid", "zpw_uid"]

/-- The session state held by `_state.State`: cookie jar, derived user
id, codec secret. -/
structure SessionState where
  cookies : Option (List (String × PVal))
  user_id : Option String
  secret_key : Option (List Nat)

/-- Modelled from the spec: `_state.State.set_cookies`
(`zlapi/Async/_state.py`, absent from the source tree) — validates the
cookie structure, and on success populates the cookie jar and derives
the user id from the session cookies; fails (raises) when a required
session field is missing, leaving the state unchanged. -/
def set_cookies (st : SessionState) (cookies : List (String × PVal)) : Option SessionState :=
  if requiredSessionFields.all (fun f => (cookies.lookup f).isSome) then
    some { st with
      cookies := some cookies,
      user_id := some (match pyGet cookies "zpw_uid" with
        | PVal.str s => s
        | _ => "") }
  else
    Option.none

/-- Modelled from the spec: `_state.State.is_logged_in` — a pure
predicate over the presence of the cookie jar and the user id; no
network call. -/
def is_logged_in (st : SessionState) : Bool :=
  st.cookies.isSome && st.user_id.isSome

/-- The client fields that `set_session` touches: the `_state` object
and the derived `self.uid`. -/
structure Client where
  state : SessionState
  uidC : Option String

/-- A freshly constructed, not-logged-in client. -/
def freshClient : Client :=
  { state := { cookies := Option.none, user_id := Option.none, secret_key := Option.none },
    uidC := Option.none }

/-- Shallow embedding of `ZaloAPI.set_session`
(src/zlapi/simple/_async.py, lines 151–172): rejects a non-dict
argument, loads the cookies into the state and derives `self.uid`;
any exception from the state layer is caught and turned into `False`. -/
def set_session (cl : Client) (session_cookies : PVal) : Client × Bool :=
  match session_cookies with
  | PVal.dict entries =>
    match set_cookies cl.state entries with
    | some st => ({ cl with state := st, uidC := st.user_id }, true)
    | Option.none => (cl, false)
  | _ => (cl, false)

/-- C9: loading a cookie mapping that lacks the required session fields
(such as `{a: 1}`) makes `set_session` return `False`, and
`is_logged_in` subsequently stays `False`. -/
theorem c9_set_session_rejects_improper_cookies (entries : List (String × PVal))
    (h : requiredSessionFields.all (fun f => (entries.lookup f).isNone) = true) :
    (set_session freshClient (PVal.dict entries)).2 = false
    ∧ is_logged_in (set_session freshClient (PVal.dict entries)).1.state = false := by
  have hnone : (entries.lookup "zpw_sid").isNone = true := by
    have := List.all_eq_true.mp h "zpw_sid" (by simp [requiredSessionFields])
    exact this
  have hsome : (entries.lookup "zpw_sid").isSome = false := by
    cases hl : entries.lookup "zpw_sid" with
    | none => rfl
    | some v => rw [hl] at hnone; exact absurd hnone (by simp)
  have hcheck : set_cookies freshClient.state entries = Option.none := by
    unfold set_cookies
    rw [if_neg]
    intro hall
    have := List.all_eq_true.mp hall "zpw_sid" (by simp [requiredSessionFields])
    rw [hsome] at this
    simp at this
  constructor
  · simp only [set_session]
    rw [hcheck]
  · simp only [set_session]
    rw [hcheck]
    rfl

/-- Witness for C9 at the spec's scenario cookie mapping `{a: 1}`. -/
theorem c9_set_session_rejects_improper_cookies_witness :
    (set_session freshClient (PVal.dict [("a", PVal.int 1)])).2 = false
    ∧ is_logged_in (set_session freshClient (PVal.dict [("a", PVal.int 1)])).1.state = false :=
  c9_set_session_rejects_improper_cookies [("a", PVal.int 1)] rfl

/-! ## Handler registry and dispatcher

`register_handler` (src/zlapi/simple/_async.py, lines 79–94) maintains
`self.register_commands` (a dict keyed by `self.prefix + command`) and
`self.register_messages` (a list of `(handler, predicate)` pairs).
`add_register_handler` (lines 64–76) wraps `onMessage`: it first awaits
the wrapped function, then the exact-command entry for the message
content if one exists, then every pattern handler whose predicate
accepts the content.  Handlers are modelled by numeric identifiers; a
dispatch returns the list of invoked handler ids in invocation order. -/

/-- The handler tables of a client: the command prefix (`self.prefix`),
the exact-command dict and the pattern list. -/
structure Registry where
  pfx : String
  register_commands : List (String × Nat)
  register_messages : List (Nat × (String → Bool))

/-- Python dict assignment `d[k] = v` on an insertion-ordered dict:
overwrite in place, or append a new entry. -/
def dictAssign (d : List (String × Nat)) (k : String) (v : Nat) : List (String × Nat) :=
  match d with
  | [] => [(k, v)]
  | (k0, v0) :: rest =>
    if k0 = k then (k0, v) :: rest else (k0, v0) :: dictAssign rest k v

/-- The `commands` argument of `register_handler`: a single command
string or a list of command strings. -/
inductive CmdArg where
  | str (s : String)
  | list (l : List String)

/-- Shallow embedding of `ZaloAPI.register_handler`
(src/zlapi/simple/_async.py, lines 79–94) applied to a handler `func`:
a single command string assigns one dict entry under `prefix + command`;
a list of commands rebuilds `register_commands` from scratch as a dict
comprehension; a `message` predicate is appended to
`register_messages`. -/
def register_handler (reg : Registry) (message : Option (String → Bool))
    (commands : Option CmdArg) (func : Nat) : Registry :=
  let reg1 :=
    match commands with
    | some (CmdArg.str s) =>
      { reg with register_commands := dictAssign reg.register_commands (reg.pfx ++ s) func }
    | some (CmdArg.list l) =>
      { reg with register_commands :=
          l.foldl (fun d c => dictAssign d (reg.pfx ++ c) func) [] }
    | Option.none => reg
  match message with
  | some cond => { reg1 with register_messages := reg1.register_messages ++ [(func, cond)] }
  | Option.none => reg1

/-- Shallow embedding of the dispatch performed by the wrapped
`onMessage` (src/zlapi/simple/_async.py, lines 64–76): run the wrapped
function (`base`), then the exact-command entry for the content if
present, then every matching pattern handler, in table order. -/
def onMessageDispatch (base : Nat) (reg : Registry) (content : String) : List Nat :=
  base ::
    (match reg.register_commands.lookup content with
      | some f => [f]
      | Option.none => [])
    ++ (reg.register_messages.filter (fun p => p.2 content)).map Prod.fst

lemma lookup_cons_eq_ite (a k0 : String) (v0 : Nat) (rest : List (String × Nat)) :
    ((k0, v0) :: rest).lookup a = if a = k0 then some v0 else rest.lookup a := by
  by_cases h : a = k0
  · simp [List.lookup_cons, h]
  · have hb : (a == k0) = false := by simp [h]
    simp [List.lookup_cons, hb, h]

lemma lookup_dictAssign (d : List (String × Nat)) (k k' : String) (v : Nat) :
    (dictAssign d k v).lookup k' = if k' = k then some v else d.lookup k' := by
  induction d with
  | nil =>
    show ((k, v) :: []).lookup k' = if k' = k then some v else ([] : List (String × Nat)).lookup k'
    rw [lookup_cons_eq_ite]
  | cons p rest ih =>
    obtain ⟨k0, v0⟩ := p
    show (if k0 = k then (k0, v) :: rest else (k0, v0) :: dictAssign rest k v).lookup k'
        = if k' = k then some v else ((k0, v0) :: rest).lookup k'
    by_cases h0 : k0 = k
    · rw [if_pos h0]
      subst h0
      rw [lookup_cons_eq_ite, lookup_cons_eq_ite]
      by_cases h : k' = k0 <;> simp [h]
    · rw [if_neg h0, lookup_cons_eq_ite, lookup_cons_eq_ite, ih]
      by_cases h : k' = k0
      · have hk : ¬k' = k := fun he => h0 (h ▸ he)
        simp [h, hk, h0]
      · simp [h]

lemma lookup_foldl_dictAssign (pfx : String) (f : Nat) (l : List String)
    (d : List (String × Nat)) (k : String) :
    (l.foldl (fun d c => dictAssign d (pfx ++ c) f) d).lookup k
      = if k ∈ l.map (fun c => pfx ++ c) then some f else d.lookup k := by
  induction l generalizing d with
  | nil => simp
  | cons c rest ih =>
    simp only [List.foldl_cons, List.map_cons, List.mem_cons]
    rw [ih, lookup_dictAssign]
    by_cases h1 : k ∈ rest.map (fun c => pfx ++ c)
    · simp [h1]
    · by_cases h2 : k = pfx ++ c
      · simp [h1, h2]
      · simp [h1, h2]

/-- C10: registering a handler with a list of command strings replaces
the whole exact-command table with exactly the map from
`prefix + command` to the new handler for the listed commands
(independently of every earlier registration), whereas registering a
single command string only adds or overwrites that one entry. -/
theorem c10_register_handler_list_replaces_table (reg : Registry)
    (message : Option (String → Bool)) (l : List String) (s : String)
    (func : Nat) (k : String) :
    (register_handler reg message (some (CmdArg.list l)) func).register_commands.lookup k
      = (if k ∈ l.map (fun c => reg.pfx ++ c) then some func else Option.none)
    ∧ (register_handler reg message (some (CmdArg.str s)) func).register_commands.lookup k
      = (if k = reg.pfx ++ s then some func else reg.register_commands.lookup k) := by
  constructor
  · have hbase : (List.lookup k ([] : List (String × Nat))) = Option.none := rfl
    cases message with
    | none =>
      simp only [register_handler]
      rw [lookup_foldl_dictAssign]
      rw [hbase]
    | some cond =>
      simp only [register_handler]
      rw [lookup_foldl_dictAssign]
      rw [hbase]
  · cases message with
    | none =>
      simp only [register_handler]
      exact lookup_dictAssign _ _ _ _
    | some cond =>
      simp only [register_handler]
      exact lookup_dictAssign _ _ _ _

/-- C8: with prefix `""` and a handler registered under the command
`"/info"`, dispatching an event whose content is `"/info"` invokes that
command handler exactly once (after the wrapped base handler), and,
independently, every pattern handler whose predicate matches `"/info"`
is invoked as well. -/
theorem c8_dispatch_command_and_patterns (base h : Nat) (reg : Registry)
    (hp : reg.pfx = "") :
    onMessageDispatch base (register_handler reg Option.none (some (CmdArg.str "/info")) h)
        "/info"
      = base :: h ::
          (reg.register_messages.filter (fun p => p.2 "/info")).map Prod.fst
    ∧ ∀ p ∈ reg.register_messages, p.2 "/info" = true →
        p.1 ∈ onMessageDispatch base
          (register_handler reg Option.none (some (CmdArg.str "/info")) h) "/info" := by
  have hmain :
      onMessageDispatch base (register_handler reg Option.none (some (CmdArg.str "/info")) h)
          "/info"
        = base :: h ::
            (reg.register_messages.filter (fun p => p.2 "/info")).map Prod.fst := by
    simp only [onMessageDispatch, register_handler]
    rw [lookup_dictAssign]
    rw [hp]
    simp
  refine ⟨hmain, ?_⟩
  intro p hmem hmatch
  rw [hmain]
  right
  right
  exact List.mem_map_of_mem Prod.fst (List.mem_filter.mpr ⟨hmem, hmatch⟩)

/-- Witness for C8: a registry with prefix `""`, one matching and one
non-matching pattern handler. -/
theorem c8_dispatch_command_and_patterns_witness :
    onMessageDispatch 0
        (register_handler
          { pfx := "", register_commands := [],
            register_messages := [(7, fun s => s.startsWith "/"), (9, fun s => s = "ping")] }
          Option.none (some (CmdArg.str "/info")) 3) "/info"
      = 0 :: 3 ::
          (([(7, fun s => s.startsWith "/"), (9, fun s => s = "ping")]
            : List (Nat × (String → Bool))).filter (fun p => p.2 "/info")).map Prod.fst
    ∧ ∀ p ∈ ([(7, fun s => s.startsWith "/"), (9, fun s => s = "ping")]
            : List (Nat × (String → Bool))), p.2 "/info" = true →
        p.1 ∈ onMessageDispatch 0
          (register_handler
            { pfx := "", register_commands := [],
              register_messages := [(7, fun s => s.startsWith "/"), (9, fun s => s = "ping")] }
            Option.none (some (CmdArg.str "/info")) 3) "/info" :=
  c8_dispatch_command_and_patterns 0 3
    { pfx := "", register_commands := [],
      register_messages := [(7, fun s => s.startsWith "/"), (9, fun s => s = "ping")] }
    rfl

/-! ## The polling listen loop

`_listen` (src/zlapi/simple/_async.py, lines 3165–3196): starting from
an empty `HasRead` set, while the stop condition is not set it computes
`ListenTime = int((time.time() - 10) * 1000)`, clears `HasRead` wholesale
when its size exceeds 10,000,000, fetches the latest-messages snapshot,
and dispatches every fetched message whose timestamp is at or after
`ListenTime` and whose id is not in `HasRead`, adding the id to
`HasRead` first.  It then sleeps and repeats.  `stopListening`
(lines 3274–3277) sets the condition, which the loop observes at the
top of the next iteration.  There is no exception handler around the
fetch: an API exception propagates out of `_listen` and ends the loop.

Time is modelled in milliseconds (`nowMs` is `time.time() * 1000` at the
top of the iteration, so `ListenTime = nowMs - 10000`).  `HasRead` is
modelled as a duplicate-free list (ids are only added when absent, as in
the source), so its length is the set's size. -/

/-- A raw fetched message as the loop reads it: `message["msgId"]` and
`int(message["ts"])`. -/
structure Msg where
  msgId : String
  ts : Int
deriving BEq, DecidableEq

/-- The inner `for message in messages + groupmsg` loop of `_listen`
(lines 3178–3194): returns the final `HasRead` and the messages handed
to `loop.create_task(self.onMessage(...))`, in dispatch order. -/
def processMsgs (listenTime : Int) : List Msg → List String → List String × List Msg
  | [], seen => (seen, [])
  | m :: rest, seen =>
    if listenTime ≤ m.ts ∧ m.msgId ∉ seen then
      let r := processMsgs listenTime rest (m.msgId :: seen)
      (r.1, m :: r.2)
    else
      processMsgs listenTime rest seen

/-- What one iteration of the `while` loop observes: the stop
condition at the top, the current wall-clock time in milliseconds, and
the outcome of `get_last_msgs` — either the direct-thread and group
snapshots or a raised `ZaloAPIException`. -/
structure CycleInput where
  stopSet : Bool
  nowMs : Int
  fetch : Except CallError (List Msg × List Msg)

/-- Outcome of running `_listen` over a finite schedule of iteration
inputs: the dispatched messages in order, the number of fetches
performed, the final `HasRead`, and the exception that escaped the
loop, if any. -/
structure RunResult where
  dispatched : List Msg
  fetchCount : Nat
  seen : List String
  err : Option CallError

/-- Shallow embedding of the `while not self._condition.is_set()` loop of
`_listen` (lines 3167–3196) over a finite schedule: observe the stop
condition, clear `HasRead` when its size exceeds 10,000,000, fetch
(propagating an exception, which terminates the loop), dispatch the
fresh recent messages, sleep, repeat. -/
def listenRun : List CycleInput → List String → RunResult
  | [], seen => { dispatched := [], fetchCount := 0, seen := seen, err := Option.none }
  | c :: rest, seen =>
    if c.stopSet then
      { dispatched := [], fetchCount := 0, seen := seen, err := Option.none }
    else
      let seenC := if seen.length > 10000000 then [] else seen
      match c.fetch with
      | Except.error e =>
        { dispatched := [], fetchCount := 1, seen := seenC, err := some e }
      | Except.ok (msgs, groupmsg) =>
        let r1 := processMsgs (c.nowMs - 10000) (msgs ++ groupmsg) seenC
        let r := listenRun rest r1.1
        { dispatched := r1.2 ++ r.dispatched, fetchCount := r.fetchCount + 1,
          seen := r.seen, err := r.err }

lemma mem_seen_processMsgs (t : Int) (L : List Msg) (s : List String) (id : String)
    (h : id ∈ s) : id ∈ (processMsgs t L s).1 := by
  induction L generalizing s with
  | nil => exact h
  | cons m rest ih =>
    show id ∈ (if t ≤ m.ts ∧ m.msgId ∉ s then
        ((processMsgs t rest (m.msgId :: s)).1, m :: (processMsgs t rest (m.msgId :: s)).2)
      else processMsgs t rest s).1
    split_ifs with hc
    · exact ih (m.msgId :: s) (List.mem_cons_of_mem _ h)
    · exact ih s h

lemma dispatched_mem_seen (t : Int) (L : List Msg) (s : List String) (m : Msg)
    (h : m ∈ (processMsgs t L s).2) : m.msgId ∈ (processMsgs t L s).1 := by
  induction L generalizing s with
  | nil => exact absurd h (List.not_mem_nil m)
  | cons m0 rest ih =>
    by_cases hc : t ≤ m0.ts ∧ m0.msgId ∉ s
    · have he : processMsgs t (m0 :: rest) s
          = ((processMsgs t rest (m0.msgId :: s)).1,
             m0 :: (processMsgs t rest (m0.msgId :: s)).2) := by
        show (if t ≤ m0.ts ∧ m0.msgId ∉ s then _ else _) = _
        rw [if_pos hc]
      rw [he] at h ⊢
      rcases List.mem_cons.mp h with h1 | h1
      · subst h1
        exact mem_seen_processMsgs t rest _ _ (List.mem_cons_self _ _)
      · exact ih (m0.msgId :: s) h1
    · have he : processMsgs t (m0 :: rest) s = processMsgs t rest s := by
        show (if t ≤ m0.ts ∧ m0.msgId ∉ s then _ else _) = _
        rw [if_neg hc]
      rw [he] at h ⊢
      exact ih s h

lemma dispatched_fresh (t : Int) (L : List Msg) (s : List String) (m : Msg)
    (h : m ∈ (processMsgs t L s).2) : m.msgId ∉ s := by
  induction L generalizing s with
  | nil => exact absurd h (List.not_mem_nil m)
  | cons m0 rest ih =>
    by_cases hc : t ≤ m0.ts ∧ m0.msgId ∉ s
    · have he : processMsgs t (m0 :: rest) s
          = ((processMsgs t rest (m0.msgId :: s)).1,
             m0 :: (processMsgs t rest (m0.msgId :: s)).2) := by
        show (if t ≤ m0.ts ∧ m0.msgId ∉ s then _ else _) = _
        rw [if_pos hc]
      rw [he] at h
      rcases List.mem_cons.mp h with h1 | h1
      · subst h1
        exact hc.2
      · intro hmem
        exact ih (m0.msgId :: s) h1 (List.mem_cons_of_mem _ hmem)
    · have he : processMsgs t (m0 :: rest) s = processMsgs t rest s := by
        show (if t ≤ m0.ts ∧ m0.msgId ∉ s then _ else _) = _
        rw [if_neg hc]
      rw [he] at h
      exact ih s h

lemma nodup_dispatched (t : Int) (L : List Msg) (s : List String) :
    ((processMsgs t L s).2.map Msg.msgId).Nodup := by
  induction L generalizing s with
  | nil => exact List.nodup_nil
  | cons m0 rest ih =>
    by_cases hc : t ≤ m0.ts ∧ m0.msgId ∉ s
    · have he : processMsgs t (m0 :: rest) s
          = ((processMsgs t rest (m0.msgId :: s)).1,
             m0 :: (processMsgs t rest (m0.msgId :: s)).2) := by
        show (if t ≤ m0.ts ∧ m0.msgId ∉ s then _ else _) = _
        rw [if_pos hc]
      rw [he]
      refine List.Nodup.cons ?_ (ih (m0.msgId :: s))
      intro hmem
      obtain ⟨m', hm', hid⟩ := List.mem_map.mp hmem
      have := dispatched_fresh t rest (m0.msgId :: s) m' hm'
      rw [hid] at this
      exact this (List.mem_cons_self _ _)
    · have he : processMsgs t (m0 :: rest) s = processMsgs t rest s := by
        show (if t ≤ m0.ts ∧ m0.msgId ∉ s then _ else _) = _
        rw [if_neg hc]
      rw [he]
      exact ih s

lemma qualifying_dispatched (t : Int) (L : List Msg) (s : List String) (m : Msg)
    (hmem : m ∈ L) (hts : t ≤ m.ts) (hfresh : m.msgId ∉ s) :
    m.msgId ∈ (processMsgs t L s).2.map Msg.msgId := by
  induction L generalizing s with
  | nil => exact absurd hmem (List.not_mem_nil m)
  | cons m0 rest ih =>
    by_cases hc : t ≤ m0.ts ∧ m0.msgId ∉ s
    · have he : processMsgs t (m0 :: rest) s
          = ((processMsgs t rest (m0.msgId :: s)).1,
             m0 :: (processMsgs t rest (m0.msgId :: s)).2) := by
        show (if t ≤ m0.ts ∧ m0.msgId ∉ s then _ else _) = _
        rw [if_pos hc]
      rw [he]
      by_cases hid : m.msgId = m0.msgId
      · rw [List.map_cons]
        rw [hid]
        exact List.mem_cons_self _ _
      · rcases List.mem_cons.mp hmem with h1 | h1
        · exact absurd (congrArg Msg.msgId h1) hid
        · rw [List.map_cons]
          refine List.mem_cons_of_mem _ ?_
          refine ih (m0.msgId :: s) h1 ?_
          intro hx
          rcases List.mem_cons.mp hx with h2 | h2
          · exact hid h2
          · exact hfresh h2
    · have he : processMsgs t (m0 :: rest) s = processMsgs t rest s := by
        show (if t ≤ m0.ts ∧ m0.msgId ∉ s then _ else _) = _
        rw [if_neg hc]
      rw [he]
      rcases List.mem_cons.mp hmem with h1 | h1
      · exfalso
        exact hc ⟨h1 ▸ hts, h1 ▸ hfresh⟩
      · exact ih s h1 hfresh

lemma listenRun_nil (seen : List String) :
    listenRun [] seen
      = { dispatched := [], fetchCount := 0, seen := seen, err := Option.none } := rfl

lemma listenRun_cons_stop (c : CycleInput) (rest : List CycleInput) (seen : List String)
    (h : c.stopSet = true) :
    listenRun (c :: rest) seen
      = { dispatched := [], fetchCount := 0, seen := seen, err := Option.none } := by
  simp [listenRun, h]

lemma listenRun_cons_err (c : CycleInput) (rest : List CycleInput) (seen : List String)
    (e : CallError) (hs : c.stopSet = false) (hf : c.fetch = Except.error e) :
    listenRun (c :: rest) seen
      = { dispatched := [], fetchCount := 1,
          seen := if seen.length > 10000000 then [] else seen, err := some e } := by
  simp [listenRun, hs, hf]

lemma listenRun_cons_ok (c : CycleInput) (rest : List CycleInput) (seen : List String)
    (msgs gmsgs : List Msg) (hs : c.stopSet = false)
    (hf : c.fetch = Except.ok (msgs, gmsgs)) :
    listenRun (c :: rest) seen
      = { dispatched :=
            (processMsgs (c.nowMs - 10000) (msgs ++ gmsgs)
                (if seen.length > 10000000 then [] else seen)).2
              ++ (listenRun rest
                    (processMsgs (c.nowMs - 10000) (msgs ++ gmsgs)
                      (if seen.length > 10000000 then [] else seen)).1).dispatched,
          fetchCount :=
            (listenRun rest
                (processMsgs (c.nowMs - 10000) (msgs ++ gmsgs)
                  (if seen.length > 10000000 then [] else seen)).1).fetchCount + 1,
          seen :=
            (listenRun rest
                (processMsgs (c.nowMs - 10000) (msgs ++ gmsgs)
                  (if seen.length > 10000000 then [] else seen)).1).seen,
          err :=
            (listenRun rest
                (processMsgs (c.nowMs - 10000) (msgs ++ gmsgs)
                  (if seen.length > 10000000 then [] else seen)).1).err } := by
  simp [listenRun, hs, hf]

/-- C3: across two fetch cycles of one run started with an empty seen
set, provided the seen set is not cleared between them, no message id is
dispatched twice, and every message of the first fetch that passes the
look-back filter is dispatched — so an id returned by both fetches is
dispatched exactly once across the two cycles. -/
theorem c3_seen_set_dedup (c1 c2 : CycleInput) (m1 g1 m2 g2 : List Msg)
    (hs1 : c1.stopSet = false) (hs2 : c2.stopSet = false)
    (hf1 : c1.fetch = Except.ok (m1, g1)) (hf2 : c2.fetch = Except.ok (m2, g2))
    (hnoclear : (processMsgs (c1.nowMs - 10000) (m1 ++ g1) []).1.length ≤ 10000000) :
    ((listenRun [c1, c2] []).dispatched.map Msg.msgId).Nodup
    ∧ ∀ m ∈ m1 ++ g1, c1.nowMs - 10000 ≤ m.ts →
        m.msgId ∈ (listenRun [c1, c2] []).dispatched.map Msg.msgId := by
  have h1 : ¬(List.length ([] : List String) > 10000000) := by simp
  have h2 : ¬((processMsgs (c1.nowMs - 10000) (m1 ++ g1) []).1.length > 10000000) := by
    omega
  have hrun : (listenRun [c1, c2] []).dispatched
      = (processMsgs (c1.nowMs - 10000) (m1 ++ g1) []).2
        ++ (processMsgs (c2.nowMs - 10000) (m2 ++ g2)
              (processMsgs (c1.nowMs - 10000) (m1 ++ g1) []).1).2 := by
    rw [listenRun_cons_ok c1 [c2] [] m1 g1 hs1 hf1]
    rw [if_neg h1]
    rw [listenRun_cons_ok c2 [] _ m2 g2 hs2 hf2]
    rw [if_neg h2]
    rw [listenRun_nil]
    simp
  rw [hrun]
  constructor
  · rw [List.map_append]
    rw [List.nodup_append]
    refine ⟨nodup_dispatched _ _ _, nodup_dispatched _ _ _, ?_⟩
    intro id hid1 hid2
    obtain ⟨ma, hma, hida⟩ := List.mem_map.mp hid1
    obtain ⟨mb, hmb, hidb⟩ := List.mem_map.mp hid2
    have hfresh := dispatched_fresh _ _ _ _ hmb
    have hseen := dispatched_mem_seen _ _ _ _ hma
    rw [hida] at hseen
    rw [hidb] at hfresh
    exact hfresh hseen
  · intro m hm hts
    rw [List.map_append]
    refine List.mem_append.mpr (Or.inl ?_)
    exact qualifying_dispatched _ _ _ m hm hts (List.not_mem_nil _)

/-- Witness for C3: two concrete cycles whose fetches overlap on the
id `"a"`. -/
theorem c3_seen_set_dedup_witness :
    ((listenRun
        [{ stopSet := false, nowMs := 1000000,
           fetch := Except.ok ([{ msgId := "a", ts := 999000 }], []) },
         { stopSet := false, nowMs := 1001000,
           fetch := Except.ok ([{ msgId := "a", ts := 999000 },
                                { msgId := "b", ts := 1000500 }], []) }]
        []).dispatched.map Msg.msgId).Nodup
    ∧ ∀ m ∈ ([{ msgId := "a", ts := 999000 }] ++ ([] : List Msg)),
        (1000000 : Int) - 10000 ≤ m.ts →
        m.msgId ∈ (listenRun
          [{ stopSet := false, nowMs := 1000000,
             fetch := Except.ok ([{ msgId := "a", ts := 999000 }], []) },
           { stopSet := false, nowMs := 1001000,
             fetch := Except.ok ([{ msgId := "a", ts := 999000 },
                                  { msgId := "b", ts := 1000500 }], []) }]
          []).dispatched.map Msg.msgId :=
  c3_seen_set_dedup
    { stopSet := false, nowMs := 1000000,
      fetch := Except.ok ([{ msgId := "a", ts := 999000 }], []) }
    { stopSet := false, nowMs := 1001000,
      fetch := Except.ok ([{ msgId := "a", ts := 999000 },
                           { msgId := "b", ts := 1000500 }], []) }
    [{ msgId := "a", ts := 999000 }] [] [{ msgId := "a", ts := 999000 },
                                        { msgId := "b", ts := 1000500 }] []
    rfl rfl rfl rfl (by decide)

/-- C4 counterexample: a run in which the first cycle's fetch raises an
API exception and a second cycle with a fresh, recent message is still
scheduled.  The claim predicts the loop survives the error and performs
the next fetch; on the code the exception escapes `_listen` (there is no
handler around `get_last_msgs`), so the run ends with that exception,
exactly one fetch was performed, and nothing is ever dispatched. -/
theorem c4_counterexample_fetch_error_ends_loop :
    (listenRun
        [{ stopSet := false, nowMs := 1000000,
           fetch := Except.error (CallError.api (PVal.int 500) PVal.none) },
         { stopSet := false, nowMs := 1001000,
           fetch := Except.ok ([{ msgId := "m2", ts := 1000500 }], []) }]
        []).err = some (CallError.api (PVal.int 500) PVal.none)
    ∧ (listenRun
        [{ stopSet := false, nowMs := 1000000,
           fetch := Except.error (CallError.api (PVal.int 500) PVal.none) },
         { stopSet := false, nowMs := 1001000,
           fetch := Except.ok ([{ msgId := "m2", ts := 1000500 }], []) }]
        []).fetchCount = 1
    ∧ (listenRun
        [{ stopSet := false, nowMs := 1000000,
           fetch := Except.error (CallError.api (PVal.int 500) PVal.none) },
         { stopSet := false, nowMs := 1001000,
           fetch := Except.ok ([{ msgId := "m2", ts := 1000500 }], []) }]
        []).dispatched = [] :=
  ⟨rfl, rfl, rfl⟩

/-- C4 (amended): a poll cycle whose fetch raises an API exception
terminates the listen loop — the exception propagates out of `_listen`,
that cycle's fetch is the last one performed, and no message of any
later cycle is dispatched. -/
theorem c4_fetch_error_terminates_loop (c : CycleInput) (rest : List CycleInput)
    (seen : List String) (e : CallError)
    (hs : c.stopSet = false) (hf : c.fetch = Except.error e) :
    (listenRun (c :: rest) seen).err = some e
    ∧ (listenRun (c :: rest) seen).fetchCount = 1
    ∧ (listenRun (c :: rest) seen).dispatched = [] := by
  rw [listenRun_cons_err c rest seen e hs hf]
  exact ⟨rfl, rfl, rfl⟩

/-- Witness for the amended C4 at a concrete failing cycle. -/
theorem c4_fetch_error_terminates_loop_witness :
    (listenRun
        [{ stopSet := false, nowMs := 1000000,
           fetch := Except.error CallError.decodeError },
         { stopSet := false, nowMs := 1001000,
           fetch := Except.ok ([{ msgId := "x", ts := 1000500 }], []) }]
        ["old"]).err = some CallError.decodeError
    ∧ (listenRun
        [{ stopSet := false, nowMs := 1000000,
           fetch := Except.error CallError.decodeError },
         { stopSet := false, nowMs := 1001000,
           fetch := Except.ok ([{ msgId := "x", ts := 1000500 }], []) }]
        ["old"]).fetchCount = 1
    ∧ (listenRun
        [{ stopSet := false, nowMs := 1000000,
           fetch := Except.error CallError.decodeError },
         { stopSet := false, nowMs := 1001000,
           fetch := Except.ok ([{ msgId := "x", ts := 1000500 }], []) }]
        ["old"]).dispatched = [] :=
  c4_fetch_error_terminates_loop
    { stopSet := false, nowMs := 1000000, fetch := Except.error CallError.decodeError }
    [{ stopSet := false, nowMs := 1001000,
       fetch := Except.ok ([{ msgId := "x", ts := 1000500 }], []) }]
    ["old"] CallError.decodeError rfl rfl

/-- C5: if the stop condition is observed set at the top of iteration
`k` of a run, the loop performs at most `k` fetches — once
`stopListening` sets the condition during an in-flight cycle, that cycle
completes and no further fetch occurs. -/
theorem c5_stop_bounds_fetches (inputs : List CycleInput) (seen : List String)
    (k : Nat) (c : CycleInput)
    (hk : inputs.get? k = some c) (hstop : c.stopSet = true) :
    (listenRun inputs seen).fetchCount ≤ k := by
  induction inputs generalizing k seen with
  | nil => exact absurd hk (by simp)
  | cons c0 rest ih =>
    cases k with
    | zero =>
      have hc : c0 = c := by
        have := hk
        rw [List.get?_cons_zero] at this
        exact Option.some.inj this
      rw [listenRun_cons_stop c0 rest seen (hc ▸ hstop)]
    | succ k =>
      have hk' : rest.get? k = some c := by
        rw [List.get?_cons_succ] at hk
        exact hk
      by_cases hs0 : c0.stopSet = true
      · rw [listenRun_cons_stop c0 rest seen hs0]
        exact Nat.zero_le _
      · have hs0' : c0.stopSet = false := by
          cases h : c0.stopSet
          · rfl
          · exact absurd h hs0
        cases hf : c0.fetch with
        | error e =>
          rw [listenRun_cons_err c0 rest seen e hs0' hf]
          exact Nat.succ_le_succ (Nat.zero_le k)
        | ok p =>
          obtain ⟨msgs, gmsgs⟩ := p
          rw [listenRun_cons_ok c0 rest seen msgs gmsgs hs0' hf]
          exact Nat.succ_le_succ (ih _ _ hk')

/-- Witness for C5: stop observed at the top of iteration 1 of a
concrete run bounds its fetch count by 1. -/
theorem c5_stop_bounds_fetches_witness :
    (listenRun
        [{ stopSet := false, nowMs := 1000000,
           fetch := Except.ok ([{ msgId := "a", ts := 999000 }], []) },
         { stopSet := true, nowMs := 1001000, fetch := Except.ok ([], []) },
         { stopSet := true, nowMs := 1002000,
           fetch := Except.ok ([{ msgId := "b", ts := 1001500 }], []) }]
        []).fetchCount ≤ 1 :=
  c5_stop_bounds_fetches
    [{ stopSet := false, nowMs := 1000000,
       fetch := Except.ok ([{ msgId := "a", ts := 999000 }], []) },
     { stopSet := true, nowMs := 1001000, fetch := Except.ok ([], []) },
     { stopSet := true, nowMs := 1002000,
       fetch := Except.ok ([{ msgId := "b", ts := 1001500 }], []) }]
    [] 1
    { stopSet := true, nowMs := 1001000, fetch := Except.ok ([], []) }
    rfl rfl

/-- C6: in one poll cycle, exactly the fetched messages whose timestamp
is at or after `now - 10s` (with `ListenTime = nowMs - 10000`) and whose
id is not already in the seen set are dispatched, in fetch order
(assuming the fetched ids are distinct, as message ids are). -/
theorem c6_lookback_filter (nowMs : Int) (L : List Msg) (seen : List String)
    (hnd : (L.map Msg.msgId).Nodup) :
    (processMsgs (nowMs - 10000) L seen).2
      = L.filter (fun m => decide (nowMs - 10000 ≤ m.ts ∧ m.msgId ∉ seen)) := by
  have main : ∀ (M : List Msg) (s : List String), (M.map Msg.msgId).Nodup →
      (processMsgs (nowMs - 10000) M s).2
        = M.filter (fun m => decide (nowMs - 10000 ≤ m.ts ∧ m.msgId ∉ s)) := by
    intro M
    induction M with
    | nil =>
      intro s _
      rfl
    | cons m0 rest ih =>
      intro s hnd0
      rw [List.map_cons, List.nodup_cons] at hnd0
      by_cases hc : nowMs - 10000 ≤ m0.ts ∧ m0.msgId ∉ s
      · have he : processMsgs (nowMs - 10000) (m0 :: rest) s
            = ((processMsgs (nowMs - 10000) rest (m0.msgId :: s)).1,
               m0 :: (processMsgs (nowMs - 10000) rest (m0.msgId :: s)).2) := by
          show (if nowMs - 10000 ≤ m0.ts ∧ m0.msgId ∉ s then _ else _) = _
          rw [if_pos hc]
        rw [he]
        have hfilter : rest.filter (fun m => decide (nowMs - 10000 ≤ m.ts ∧ m.msgId ∉ m0.msgId :: s))
            = rest.filter (fun m => decide (nowMs - 10000 ≤ m.ts ∧ m.msgId ∉ s)) := by
          refine List.filter_congr ?_
          intro m hm
          have hne : m.msgId ≠ m0.msgId := by
            intro he2
            exact hnd0.1 (he2 ▸ List.mem_map_of_mem Msg.msgId hm)
          refine decide_eq_decide.mpr ?_
          constructor
          · rintro ⟨hts, hmem⟩
            exact ⟨hts, fun hx => hmem (List.mem_cons_of_mem _ hx)⟩
          · rintro ⟨hts, hmem⟩
            refine ⟨hts, ?_⟩
            intro hx
            rcases List.mem_cons.mp hx with h1 | h1
            · exact hne h1
            · exact hmem h1
        rw [List.filter_cons]
        have hcond : decide (nowMs - 10000 ≤ m0.ts ∧ m0.msgId ∉ s) = true := by
          simpa using hc
        simp only [hcond, if_true]
        rw [ih (m0.msgId :: s) hnd0.2, hfilter]
      · have he : processMsgs (nowMs - 10000) (m0 :: rest) s
            = processMsgs (nowMs - 10000) rest s := by
          show (if nowMs - 10000 ≤ m0.ts ∧ m0.msgId ∉ s then _ else _) = _
          rw [if_neg hc]
        rw [he]
        rw [List.filter_cons]
        have hcond : decide (nowMs - 10000 ≤ m0.ts ∧ m0.msgId ∉ s) = false := by
          simpa using hc
        simp only [hcond, Bool.false_eq_true, if_false]
        exact ih s hnd0.2
  exact main L seen hnd

/-- Witness for C6 at the spec's scenario: `m1` sent 3 s before the poll
and `m2` 20 s before it; only `m1` is dispatched. -/
theorem c6_lookback_filter_witness :
    (([{ msgId := "m1", ts := 997000 }, { msgId := "m2", ts := 980000 }]
        : List Msg).map Msg.msgId).Nodup
    ∧ (processMsgs ((1000000 : Int) - 10000)
        [{ msgId := "m1", ts := 997000 }, { msgId := "m2", ts := 980000 }] []).2
      = [{ msgId := "m1", ts := 997000 }] := by
  refine ⟨by decide, ?_⟩
  rw [c6_lookback_filter 1000000
    [{ msgId := "m1", ts := 997000 }, { msgId := "m2", ts := 980000 }] [] (by decide)]
  decide

/-- C7: the seen set is cleared wholesale at the top of a poll cycle
exactly when its size exceeds 10,000,000 — at 10,000,001 entries the
insert of a new fresh message is preceded by the clear, so the set ends
the cycle holding the new id alone, while a set of at most 10,000,000
entries is never cleared (it either gains the new id or is unchanged). -/
theorem c7_seen_set_clear (c : CycleInput) (m : Msg) (seen seen2 : List String)
    (hs : c.stopSet = false) (hf : c.fetch = Except.ok ([m], []))
    (hlen : seen.length = 10000001) (hts : c.nowMs - 10000 ≤ m.ts)
    (hlen2 : seen2.length ≤ 10000000) :
    (listenRun [c] seen).seen = [m.msgId]
    ∧ ((listenRun [c] seen2).seen = m.msgId :: seen2
        ∨ (listenRun [c] seen2).seen = seen2) := by
  constructor
  · rw [listenRun_cons_ok c [] seen [m] [] hs hf]
    rw [if_pos (by omega : seen.length > 10000000)]
    have hstep : processMsgs (c.nowMs - 10000) ([m] ++ []) []
        = ([m.msgId], [m]) := by
      show (if c.nowMs - 10000 ≤ m.ts ∧ m.msgId ∉ ([] : List String) then _ else _) = _
      rw [if_pos ⟨hts, List.not_mem_nil _⟩]
      rfl
    rw [hstep, listenRun_nil]
  · rw [listenRun_cons_ok c [] seen2 [m] [] hs hf]
    rw [if_neg (by omega : ¬seen2.length > 10000000)]
    by_cases hmem : m.msgId ∈ seen2
    · right
      have hstep : processMsgs (c.nowMs - 10000) ([m] ++ []) seen2 = (seen2, []) := by
        show (if c.nowMs - 10000 ≤ m.ts ∧ m.msgId ∉ seen2 then _ else _) = _
        rw [if_neg (fun hx => hx.2 hmem)]
        rfl
      rw [hstep, listenRun_nil]
    · left
      have hstep : processMsgs (c.nowMs - 10000) ([m] ++ []) seen2
          = (m.msgId :: seen2, [m]) := by
        show (if c.nowMs - 10000 ≤ m.ts ∧ m.msgId ∉ seen2 then _ else _) = _
        rw [if_pos ⟨hts, hmem⟩]
        rfl
      rw [hstep, listenRun_nil]

/-- Witness for C7: a seen set of exactly 10,000,001 distinct entries is
cleared before the next insert, leaving the new id alone, while a
one-entry set is not cleared. -/
theorem c7_seen_set_clear_witness :
    (listenRun
        [{ stopSet := false, nowMs := 1000000,
           fetch := Except.ok ([{ msgId := "fresh", ts := 999000 }], []) }]
        ((List.range 10000001).map (fun n => toString n))).seen
      = [(({ msgId := "fresh", ts := 999000 } : Msg)).msgId]
    ∧ ((listenRun
          [{ stopSet := false, nowMs := 1000000,
             fetch := Except.ok ([{ msgId := "fresh", ts := 999000 }], []) }]
          ["x"]).seen = (({ msgId := "fresh", ts := 999000 } : Msg)).msgId :: ["x"]
        ∨ (listenRun
            [{ stopSet := false, nowMs := 1000000,
               fetch := Except.ok ([{ msgId := "fresh", ts := 999000 }], []) }]
            ["x"]).seen = ["x"]) :=
  c7_seen_set_clear
    { stopSet := false, nowMs := 1000000,
      fetch := Except.ok ([{ msgId := "fresh", ts := 999000 }], []) }
    { msgId := "fresh", ts := 999000 }
    ((List.range 10000001).map (fun n => toString n)) ["x"]
    rfl rfl (by simp) (by decide) (by decide)

end Zlapi
